import Mathlib

/-!
# Notification scheduling and delivery engine — shallow embedding

This file embeds the notification core of the repository in Lean 4:

* the persistent dedup store (`NotificationStorageService` in the source:
  `saveNotification`, `getUnshownNotifications`, `markAsShown`,
  `markAsDismissed`, `cleanupOldNotifications`, `autoCleanupIfNeeded`,
  `notificationExists`);
* the timing policy (`IMPORTANT_TIMINGS`, `REGULAR_TIMINGS`,
  `isImportantEvent`, `getNotificationKey`);
* the scan engine (`checkForMissedNotifications`, `checkForNotifications`);
* the delivery queue state machine of the `Notification` component
  (`advanceQueue`, `removeNotification`, the queue-promotion effect and the
  auto-dismiss timer), given as a step relation on component states.

All timestamps are JavaScript epoch milliseconds, modelled as `Int`
(`Date.getTime()` values).  JavaScript string `includes` is modelled by an
explicit substring search on character lists.
-/

/-- JS `pat.isPrefixOf s` on character lists: `leadsWith pat s` is true iff
`s` starts with `pat`. -/
def leadsWith : List Char → List Char → Bool
  | [], _ => true
  | _ :: _, [] => false
  | a :: pa, b :: sb => a == b && leadsWith pa sb

/-- JS `s.includes(pat)` on character lists: does `pat` occur contiguously
inside `s`? -/
def occursIn (pat : List Char) : List Char → Bool
  | [] => pat.isEmpty
  | c :: rest => leadsWith pat (c :: rest) || occursIn pat rest

/-- JS `s.includes(pat)` on strings. -/
def strIncludes (s pat : String) : Bool :=
  occursIn pat.data s.data

/-- A reminder tier: an offset before the event start (`timeMs`, in
milliseconds) and a human label.  Mirrors `NotificationTiming` in the
source. -/
structure NotificationTiming where
  timeMs : Int
  label : String
deriving DecidableEq, Repr

/-- A calendar event as consumed by the notification component.  `startDate`
and `endDate` are epoch milliseconds (the source stores date strings and
converts with `new Date(...).getTime()`). -/
structure CalendarEvent where
  id : String
  title : String
  description : Option String
  startDate : Int
  endDate : Int
  location : Option String
  isAllDay : Bool
  status : String
deriving DecidableEq, Repr

/-- A persisted notification record (`StoredNotification` in
`shared/types`). -/
structure StoredNotification where
  id : String
  eventId : String
  eventTitle : String
  eventDescription : Option String
  eventStartDate : Int
  eventEndDate : Int
  eventLocation : Option String
  isImportant : Bool
  timing : NotificationTiming
  scheduledTime : Int
  createdAt : Int
  shown : Bool
  dismissed : Bool
deriving DecidableEq, Repr

/-- The persistent store contents (`NotificationStorage` in `shared/types`):
the record list plus the `lastCleanup` timestamp. -/
structure NotificationStorage where
  notifications : List StoredNotification
  lastCleanup : Int
deriving DecidableEq, Repr

/-- `NotificationStorageService.saveNotification`: remove any existing record
with the same id, then push the new record (idempotent upsert by id). -/
def saveNotification (s : NotificationStorage) (n : StoredNotification) :
    NotificationStorage :=
  { s with notifications :=
      (s.notifications.filter (fun m => !(m.id == n.id))) ++ [n] }

/-- `NotificationStorageService.getUnshownNotifications`: the records with
`dismissed = false` and `scheduledTime <= now`.  (This is the query behind
the `getUnshown` / `getUnshownOrUndismissed` renderer API.) -/
def getUnshownNotifications (s : NotificationStorage) (now : Int) :
    List StoredNotification :=
  s.notifications.filter (fun n => !n.dismissed && n.scheduledTime ≤ now)

/-- Update the first record with the given id (the source locates the record
with `find` and mutates it in place). -/
def updateFirst (f : StoredNotification → StoredNotification) (id : String) :
    List StoredNotification → List StoredNotification
  | [] => []
  | n :: rest =>
    if n.id == id then f n :: rest else n :: updateFirst f id rest

/-- `NotificationStorageService.markAsShown`. -/
def markAsShown (s : NotificationStorage) (id : String) : NotificationStorage :=
  { s with notifications :=
      updateFirst (fun n => { n with shown := true }) id s.notifications }

/-- `NotificationStorageService.markAsDismissed`. -/
def markAsDismissed (s : NotificationStorage) (id : String) :
    NotificationStorage :=
  { s with notifications :=
      updateFirst (fun n => { n with dismissed := true }) id s.notifications }

/-- `NotificationStorageService.notificationExists`: true iff a record with
this id exists and is dismissed. -/
def notificationExists (s : NotificationStorage) (id : String) : Bool :=
  match s.notifications.find? (fun n => n.id == id) with
  | some n => n.dismissed
  | none => false

/-- Milliseconds in one day. -/
def dayMs : Int := 24 * 60 * 60 * 1000

/-- `NotificationStorageService.cleanupOldNotifications`: drop records whose
`createdAt` is not after `now − 30 days`; `lastCleanup` is updated only when
at least one record was dropped. -/
def cleanupOldNotifications (s : NotificationStorage) (now : Int) :
    NotificationStorage :=
  let thirtyDaysAgo := now - 30 * dayMs
  let kept := s.notifications.filter (fun n => thirtyDaysAgo < n.createdAt)
  if kept.length < s.notifications.length then
    { notifications := kept, lastCleanup := now }
  else
    { s with notifications := kept }

/-- `NotificationStorageService.autoCleanupIfNeeded`: run the cleanup iff at
least one day passed since `lastCleanup`. -/
def autoCleanupIfNeeded (s : NotificationStorage) (now : Int) :
    NotificationStorage :=
  if dayMs ≤ now - s.lastCleanup then cleanupOldNotifications s now else s

/-- The twelve-tier schedule for important events (`IMPORTANT_TIMINGS`). -/
def IMPORTANT_TIMINGS : List NotificationTiming :=
  [ ⟨30 * 24 * 60 * 60 * 1000, "1 month"⟩,
    ⟨7 * 24 * 60 * 60 * 1000, "1 week"⟩,
    ⟨5 * 24 * 60 * 60 * 1000, "5 days"⟩,
    ⟨3 * 24 * 60 * 60 * 1000, "3 days"⟩,
    ⟨2 * 24 * 60 * 60 * 1000, "2 days"⟩,
    ⟨1 * 24 * 60 * 60 * 1000, "1 day"⟩,
    ⟨12 * 60 * 60 * 1000, "12 hours"⟩,
    ⟨6 * 60 * 60 * 1000, "6 hours"⟩,
    ⟨3 * 60 * 60 * 1000, "3 hours"⟩,
    ⟨1 * 60 * 60 * 1000, "1 hour"⟩,
    ⟨30 * 60 * 1000, "30 minutes"⟩,
    ⟨10 * 60 * 1000, "10 minutes"⟩ ]

/-- The three-tier schedule for regular events (`REGULAR_TIMINGS`). -/
def REGULAR_TIMINGS : List NotificationTiming :=
  [ ⟨1 * 60 * 60 * 1000, "1 hour"⟩,
    ⟨30 * 60 * 1000, "30 minutes"⟩,
    ⟨10 * 60 * 1000, "10 minutes"⟩ ]

/-- `isImportantEvent`: the description contains the `[IMPORTANT]` marker
(`false` when there is no description). -/
def isImportantEvent (e : CalendarEvent) : Bool :=
  match e.description with
  | some d => strIncludes d "[IMPORTANT]"
  | none => false

/-- The tier table the scan passes use for an event
(`isImportant ? IMPORTANT_TIMINGS : REGULAR_TIMINGS`). -/
def timingsFor (e : CalendarEvent) : List NotificationTiming :=
  if isImportantEvent e then IMPORTANT_TIMINGS else REGULAR_TIMINGS

/-- `getNotificationKey`: the template string `eventId-timeMs`. -/
def getNotificationKey (e : CalendarEvent) (t : NotificationTiming) : String :=
  e.id ++ "-" ++ toString t.timeMs

/-- The stored record written by `saveNotificationToStorage` for an event and
tier at time `now`. -/
def mkStoredNotification (e : CalendarEvent) (t : NotificationTiming)
    (now : Int) : StoredNotification :=
  { id := getNotificationKey e t
    eventId := e.id
    eventTitle := e.title
    eventDescription := e.description
    eventStartDate := e.startDate
    eventEndDate := e.endDate
    eventLocation := e.location
    isImportant := isImportantEvent e
    timing := t
    scheduledTime := e.startDate - t.timeMs
    createdAt := now
    shown := false
    dismissed := false }

/-- Milliseconds in five minutes — the shared "missed"/"due" window. -/
def fiveMinMs : Int := 5 * 60 * 1000

/-- An in-memory notification (`ActiveNotification` in the component). -/
structure ActiveNotification where
  id : String
  event : CalendarEvent
  timing : NotificationTiming
  timestamp : Int
deriving DecidableEq, Repr

/-- The `Notification` component state: the calendar data (if delivered), the
active/displayed slot, the waiting queue, the in-memory dispatched set
(`shownNotifications`, kept as a list of keys), the `hasCheckedMissed` latch,
and the persistent store it talks to over IPC. -/
structure NotifState where
  calendarData : Option (List CalendarEvent)
  activeNotifications : List ActiveNotification
  notificationQueue : List ActiveNotification
  shownNotifications : List String
  hasCheckedMissed : Bool
  storage : NotificationStorage
deriving DecidableEq, Repr

/-- Queue append with the duplicate check both passes perform:
`if (!newQueue.some(e => e.id === x.id)) newQueue.push(x)`. -/
def pushUnlessPresent (q : List ActiveNotification) (x : ActiveNotification) :
    List ActiveNotification :=
  if q.any (fun e => e.id == x.id) then q else q ++ [x]

/-- Fold `pushUnlessPresent` over a batch of candidates. -/
def appendDedup (q : List ActiveNotification)
    (items : List ActiveNotification) : List ActiveNotification :=
  items.foldl pushUnlessPresent q

/-- The inner loop of `checkForMissedNotifications` that scans one event's
tier table keeping the missed tier with the largest scheduled time seen so
far; the accumulator starts at `(null, 0)`. -/
def findMostRecentMissed (now eventStart : Int)
    (ts : List NotificationTiming) :
    Option NotificationTiming × Int :=
  ts.foldl
    (fun acc t =>
      let notificationTime := eventStart - t.timeMs
      if fiveMinMs < now - notificationTime ∧ acc.2 < notificationTime then
        (some t, notificationTime)
      else acc)
    (none, 0)

/-- Accumulator for the missed pass: the processed-event set, the store, the
in-memory dispatched set, and the batch of missed notifications found. -/
structure MissedAcc where
  processed : List String
  storage : NotificationStorage
  shown : List String
  missed : List ActiveNotification

/-- One event of `checkForMissedNotifications`: skip already-processed event
ids, pick the most recent missed tier, skip it when the store says the key is
dismissed, otherwise save the record, collect the notification and mark the
key dispatched. -/
def missedStep (now : Int) (acc : MissedAcc) (e : CalendarEvent) : MissedAcc :=
  if acc.processed.contains e.id then acc
  else
    let acc := { acc with processed := acc.processed ++ [e.id] }
    match (findMostRecentMissed now e.startDate (timingsFor e)).1 with
    | none => acc
    | some t =>
      let key := getNotificationKey e t
      if notificationExists acc.storage key then acc
      else
        { acc with
          storage := saveNotification acc.storage (mkStoredNotification e t now)
          missed := acc.missed ++ [⟨key, e, t, now⟩]
          shown := acc.shown ++ [key] }

/-- `checkForMissedNotifications`: one missed pass over the delivered event
list at time `now` (a no-op when no calendar data has arrived). -/
def checkForMissedNotifications (now : Int) (st : NotifState) : NotifState :=
  match st.calendarData with
  | none => st
  | some events =>
    let r := events.foldl (missedStep now)
      ⟨[], st.storage, st.shownNotifications, []⟩
    { st with
      storage := r.storage
      shownNotifications := r.shown
      notificationQueue := appendDedup st.notificationQueue r.missed }

/-- Accumulator for the due pass: the due notifications found, the keys newly
marked dispatched, and the store (future-tier records are saved as the pass
goes). -/
structure DueAcc where
  newNots : List ActiveNotification
  shownAdd : List String
  storage : NotificationStorage

/-- One event-tier step of `checkForNotifications`.  The membership checks
read the component state captured when the pass started (`shown0`, `q0`,
`active0`), exactly as the source closures do. -/
def dueStep (now : Int) (shown0 : List String)
    (q0 active0 : List ActiveNotification) (e : CalendarEvent)
    (acc : DueAcc) (t : NotificationTiming) : DueAcc :=
  let notificationTime := e.startDate - t.timeMs
  let key := getNotificationKey e t
  let timeDiff := now - notificationTime
  let isWithinWindow := 0 ≤ timeDiff ∧ timeDiff ≤ fiveMinMs
  let isMissed := fiveMinMs < timeDiff
  let acc :=
    if isWithinWindow ∧ ¬isMissed ∧ ¬shown0.contains key then
      if q0.any (fun n => n.id == key) ∨ active0.any (fun n => n.id == key) then
        acc
      else
        { acc with
          newNots := acc.newNots ++ [⟨key, e, t, now⟩]
          shownAdd := acc.shownAdd ++ [key] }
    else acc
  if now + fiveMinMs < notificationTime ∧ ¬shown0.contains key then
    { acc with
      storage := saveNotification acc.storage (mkStoredNotification e t now) }
  else acc

/-- The candidate collection of one due pass over `events`. -/
def duePassScan (now : Int) (shown0 : List String)
    (q0 active0 : List ActiveNotification) (events : List CalendarEvent)
    (storage : NotificationStorage) : DueAcc :=
  events.foldl
    (fun a e => (timingsFor e).foldl (dueStep now shown0 q0 active0 e) a)
    ⟨[], [], storage⟩

/-- `checkForNotifications`: one due pass at time `now`.  When the active
slot is occupied every new notification goes to the queue tail; when it is
empty the first new notification is displayed directly and the rest are
queued. -/
def checkForNotifications (now : Int) (st : NotifState) : NotifState :=
  match st.calendarData with
  | none => st
  | some events =>
    let acc := duePassScan now st.shownNotifications st.notificationQueue
      st.activeNotifications events st.storage
    let st := { st with
      storage := acc.storage
      shownNotifications := st.shownNotifications ++ acc.shownAdd }
    match acc.newNots with
    | [] => st
    | first :: rest =>
      if st.activeNotifications.isEmpty then
        { st with
          activeNotifications := [first]
          notificationQueue := appendDedup st.notificationQueue rest }
      else
        { st with
          notificationQueue :=
            appendDedup st.notificationQueue (first :: rest) }

/-- The queue-promotion effect: when the queue is non-empty and nothing is
active, display the queue head (the head stays in the queue). -/
def promoteIfIdle (st : NotifState) : NotifState :=
  match st.notificationQueue with
  | [] => st
  | n :: _ =>
    if st.activeNotifications.isEmpty then
      { st with activeNotifications := [n] }
    else st

/-- `advanceQueue`: pop the queue head; if the remaining queue is non-empty
and nothing is active, display its head. -/
def advanceQueue (st : NotifState) : NotifState :=
  match st.notificationQueue with
  | [] => st
  | _ :: rest =>
    let st := { st with notificationQueue := rest }
    match rest with
    | [] => st
    | n :: _ =>
      if st.activeNotifications.isEmpty then
        { st with activeNotifications := [n] }
      else st

/-- `removeNotification` followed by the queue-promotion effect: drop the id
from the active slot, persist `shown` and `dismissed` for it, advance the
queue. -/
def removeNotification (st : NotifState) (id : String) : NotifState :=
  let st := { st with
    activeNotifications :=
      st.activeNotifications.filter (fun n => !(n.id == id)) }
  let st := { st with
    storage := markAsDismissed (markAsShown st.storage id) id }
  promoteIfIdle (advanceQueue st)

/-- The dismiss transition (explicit dismiss or the 10-second auto-dismiss
timer firing): `removeNotification` on the displayed notification. -/
def dismissActive (st : NotifState) : NotifState :=
  match st.activeNotifications with
  | [] => st
  | n :: _ => removeNotification st n.id

/-- A calendar-data delivery (`handleCalendarUpdate` plus the
`hasCheckedMissed` effect): store the events; on the first delivery run the
missed pass once and latch `hasCheckedMissed`. -/
def deliverStep (now : Int) (events : List CalendarEvent) (st : NotifState) :
    NotifState :=
  let st := { st with calendarData := some events }
  if st.hasCheckedMissed then st
  else { checkForMissedNotifications now st with hasCheckedMissed := true }

/-- `loadMissedNotifications` (rehydration): project every record the store
query returns into an `ActiveNotification`, put them ahead of the queue, and
mark each one shown in the store and dispatched in memory. -/
def storedToActive (now : Int) (sn : StoredNotification) :
    ActiveNotification :=
  { id := sn.id
    event :=
      { id := sn.eventId
        title := sn.eventTitle
        description := sn.eventDescription
        startDate := sn.eventStartDate
        endDate := sn.eventEndDate
        location := sn.eventLocation
        isAllDay := false
        status := "confirmed" }
    timing := sn.timing
    timestamp := now }

/-- Rehydration on startup, at time `now`. -/
def loadMissedNotifications (now : Int) (st : NotifState) : NotifState :=
  let response := getUnshownNotifications st.storage now
  match response with
  | [] => st
  | _ =>
    let st := { st with
      notificationQueue :=
        (response.map (storedToActive now)) ++ st.notificationQueue }
    response.foldl
      (fun s n =>
        { s with
          storage := markAsShown s.storage n.id
          shownNotifications := s.shownNotifications ++ [n.id] })
      st

/-- The component state at mount, over an arbitrary on-disk store. -/
def initialNotifState (storage : NotificationStorage) : NotifState :=
  { calendarData := none
    activeNotifications := []
    notificationQueue := []
    shownNotifications := []
    hasCheckedMissed := false
    storage := storage }

/-- One step of the notification engine: a calendar delivery, a due-pass
tick, rehydration, the queue-promotion effect, or a dismissal. -/
inductive NotifStep : NotifState → NotifState → Prop
  | deliver (now : Int) (events : List CalendarEvent) (st : NotifState) :
      NotifStep st (deliverStep now events st)
  | tick (now : Int) (st : NotifState) :
      NotifStep st (checkForNotifications now st)
  | rehydrate (now : Int) (st : NotifState) :
      NotifStep st (loadMissedNotifications now st)
  | promote (st : NotifState) : NotifStep st (promoteIfIdle st)
  | dismiss (st : NotifState) : NotifStep st (dismissActive st)

/-- Reachability from the mount state of some on-disk store. -/
inductive NotifReachable : NotifState → NotifState → Prop
  | refl (st : NotifState) : NotifReachable st st
  | step {st₀ st₁ st₂ : NotifState} (h : NotifReachable st₀ st₁)
      (hs : NotifStep st₁ st₂) : NotifReachable st₀ st₂

/-- An external stimulus of the engine: a calendar-data delivery (push or
initial fetch) or a 60-second due-scan timer tick. -/
inductive EngineEvent : Type
  | deliver (now : Int) (events : List CalendarEvent) : EngineEvent
  | tick (now : Int) : EngineEvent
deriving DecidableEq, Repr

/-- Whether an engine event is a calendar-data delivery. -/
def EngineEvent.isDeliver : EngineEvent → Bool
  | .deliver _ _ => true
  | .tick _ => false

/-- Apply one engine event to the component state. -/
def applyEvent (st : NotifState) : EngineEvent → NotifState
  | .deliver now events => deliverStep now events st
  | .tick now => checkForNotifications now st

/-- How many times the missed pass (`checkForMissedNotifications`) executes
along a trace of engine events: the `hasCheckedMissed` effect runs it on a
delivery when the latch is still unset, and never on a tick. -/
def missedRuns (st : NotifState) : List EngineEvent → Nat
  | [] => 0
  | ev :: rest =>
    (match ev with
     | .deliver _ _ => if st.hasCheckedMissed then 0 else 1
     | .tick _ => 0) + missedRuns (applyEvent st ev) rest

/-- A plain (non-important, no-description) calendar event used in concrete
scenarios. -/
def mkEvent (i : String) (start : Int) : CalendarEvent :=
  { id := i
    title := i
    description := none
    startDate := start
    endDate := start
    location := none
    isAllDay := false
    status := "confirmed" }

/-- Three regular events all starting at epoch + 1 hour, so their 1-hour
tiers are all due at time 0. -/
def threeDueEvents : List CalendarEvent :=
  [mkEvent "e1" 3600000, mkEvent "e2" 3600000, mkEvent "e3" 3600000]

/-- The state after mounting over an empty store and receiving
`threeDueEvents` at time 0 (first delivery, missed pass runs and finds
nothing). -/
def threeDueDelivered : NotifState :=
  deliverStep 0 threeDueEvents (initialNotifState ⟨[], 0⟩)

/-- The state after the first due pass at time 0: one notification is
displayed directly and two wait in the queue. -/
def threeDueShowing : NotifState :=
  checkForNotifications 0 threeDueDelivered

/-- A stored record for key `e1-3600000` that the user has already seen and
dismissed. -/
def dismissedRecord : StoredNotification :=
  { mkStoredNotification (mkEvent "e1" 3600000) ⟨3600000, "1 hour"⟩ (-600000)
      with shown := true, dismissed := true }

/-- A store holding only the dismissed `e1-3600000` record. -/
def dismissedStore : NotificationStorage :=
  { notifications := [dismissedRecord], lastCleanup := 0 }

/-- A fresh process over `dismissedStore`: rehydration at time 0 (loads
nothing, the record is dismissed) followed by the first delivery of the
event whose key is dismissed. -/
def freshOverDismissed : NotifState :=
  deliverStep 0 [mkEvent "e1" 3600000]
    (loadMissedNotifications 0 (initialNotifState dismissedStore))

/-- The fresh process after its first due pass at time 0, when key
`e1-3600000` is exactly due. -/
def freshAfterDuePass : NotifState :=
  checkForNotifications 0 freshOverDismissed

/-- An undismissed record whose scheduled time lies in the future. -/
def futureRecord : StoredNotification :=
  mkStoredNotification (mkEvent "e9" 7200000) ⟨3600000, "1 hour"⟩ 0

/-- A sample record for the save-twice witness. -/
def sampleStored : StoredNotification :=
  mkStoredNotification (mkEvent "s1" 1000) ⟨600000, "10 minutes"⟩ 0

/-- The due window on `delta = now − scheduledTime`: between zero and five
minutes inclusive. -/
def dueWindow (delta : Int) : Prop :=
  0 ≤ delta ∧ delta ≤ fiveMinMs

instance instDecidableDueWindow (d : Int) : Decidable (dueWindow d) :=
  inferInstanceAs (Decidable (0 ≤ d ∧ d ≤ fiveMinMs))

/-- The step of the latest-missed-tier fold of
`checkForMissedNotifications`, named for reasoning. -/
def missedSelStep (now eventStart : Int)
    (acc : Option NotificationTiming × Int) (t : NotificationTiming) :
    Option NotificationTiming × Int :=
  let notificationTime := eventStart - t.timeMs
  if fiveMinMs < now - notificationTime ∧ acc.2 < notificationTime then
    (some t, notificationTime)
  else acc

/-- A record like `sampleStored` but with a chosen id and creation time. -/
def agedRecord (i : String) (created : Int) : StoredNotification :=
  { sampleStored with id := i, createdAt := created }

/-- A store with one record aged 30 days + 1ms and one aged 29 days, as of
time `100 * dayMs`. -/
def cleanupStore : NotificationStorage :=
  ⟨[agedRecord "old" (70 * dayMs - 1), agedRecord "fresh" (71 * dayMs)], 0⟩

theorem mem_getUnshownNotifications {s : NotificationStorage} {now : Int}
    {n : StoredNotification} :
    n ∈ getUnshownNotifications s now ↔
      n ∈ s.notifications ∧ n.dismissed = false ∧ n.scheduledTime ≤ now := by
  simp [getUnshownNotifications, List.mem_filter, and_assoc]

theorem countP_saveNotification_self (s : NotificationStorage)
    (n : StoredNotification) :
    ((saveNotification s n).notifications.countP (fun m => m.id == n.id))
      = 1 := by
  simp only [saveNotification, List.countP_append]
  rw [List.countP_eq_zero.mpr]
  · simp [List.countP_cons]
  · intro m hm
    simp only [List.mem_filter, Bool.not_eq_true'] at hm
    simp [hm.2]

theorem saveNotification_idem (s : NotificationStorage)
    (n : StoredNotification) :
    saveNotification (saveNotification s n) n = saveNotification s n := by
  simp only [saveNotification, List.filter_append, List.filter_filter]
  congr 1
  simp

theorem countP_saveNotification_le (s : NotificationStorage)
    (n : StoredNotification)
    (h : ∀ k, s.notifications.countP (fun m => m.id == k) ≤ 1) (k : String) :
    (saveNotification s n).notifications.countP (fun m => m.id == k) ≤ 1 := by
  simp only [saveNotification, List.countP_append]
  by_cases hk : n.id = k
  · rw [List.countP_eq_zero.mpr]
    · simp [List.countP_cons, hk]
    · intro m hm
      simp only [List.mem_filter, Bool.not_eq_true'] at hm
      subst hk
      simp [hm.2]
  · have h1 : ([n].countP (fun m => m.id == k)) = 0 := by
      simp [List.countP_cons]
      simp [hk]
    rw [h1]
    have h2 := (@List.filter_sublist _ (fun m => !(m.id == n.id))
      s.notifications).countP_le (fun m => m.id == k)
    have h3 := h k
    omega

/-- C8: deriving the notification key is a pure function of the event id and
tier offset (so deriving it twice, or from equal inputs, yields the same
string), and `saveNotification` is an idempotent upsert: saving the same
record twice equals saving it once, after a save exactly one record carries
the saved id, and the at-most-one-record-per-key invariant is preserved. -/
theorem c8_key_stable_save_idempotent :
    (∀ (e₁ e₂ : CalendarEvent) (t₁ t₂ : NotificationTiming),
      e₁.id = e₂.id → t₁.timeMs = t₂.timeMs →
      getNotificationKey e₁ t₁ = getNotificationKey e₂ t₂) ∧
    (∀ (s : NotificationStorage) (n : StoredNotification),
      saveNotification (saveNotification s n) n = saveNotification s n) ∧
    (∀ (s : NotificationStorage) (n : StoredNotification),
      ((saveNotification s n).notifications.countP
        (fun m => m.id == n.id)) = 1) ∧
    (∀ (s : NotificationStorage) (n : StoredNotification),
      (∀ k, s.notifications.countP (fun m => m.id == k) ≤ 1) →
      ∀ k, (saveNotification s n).notifications.countP
        (fun m => m.id == k) ≤ 1) := by
  refine ⟨?_, saveNotification_idem, countP_saveNotification_self,
    countP_saveNotification_le⟩
  intro e₁ e₂ t₁ t₂ h₁ h₂
  simp [getNotificationKey, h₁, h₂]

theorem c8_witness :
    getNotificationKey (mkEvent "s1" 1000) ⟨600000, "10 minutes"⟩
        = getNotificationKey { mkEvent "s1" 1000 with title := "other" }
            ⟨600000, "ten min"⟩ ∧
    saveNotification (saveNotification ⟨[], 0⟩ sampleStored) sampleStored
        = saveNotification ⟨[], 0⟩ sampleStored ∧
    ((saveNotification ⟨[], 0⟩ sampleStored).notifications.countP
        (fun m => m.id == sampleStored.id)) = 1 ∧
    ((saveNotification ⟨[], 0⟩ sampleStored).notifications.countP
        (fun m => m.id == "s1-600000")) ≤ 1 := by
  obtain ⟨hkey, hidem, hone, hinv⟩ := c8_key_stable_save_idempotent
  exact ⟨hkey _ _ _ _ rfl rfl, hidem _ _, hone _ _,
    hinv ⟨[], 0⟩ sampleStored (fun k => by simp) "s1-600000"⟩

/-- C3 (amended): the store query behind rehydration returns exactly the
records with `dismissed = false` **and** `scheduledTime ≤ now`; the `shown`
flag is ignored, but records scheduled in the future are excluded. -/
theorem c3_unshown_query_characterization :
    ∀ (s : NotificationStorage) (now : Int) (n : StoredNotification),
      n ∈ getUnshownNotifications s now ↔
        n ∈ s.notifications ∧ n.dismissed = false ∧ n.scheduledTime ≤ now :=
  fun _ _ _ => mem_getUnshownNotifications

/-- C3 counterexample: a record with `dismissed = false` whose scheduled
time is still in the future is *not* returned by the query, contradicting
"returns the records with dismissed = false regardless of scheduledTime". -/
theorem c3_counterexample :
    futureRecord.dismissed = false ∧
    getUnshownNotifications ⟨[futureRecord], 0⟩ 0 = [] := by
  constructor
  · rfl
  · decide

/-- C7 (amended): when the 1-day guard triggers it, `cleanup` deletes every
record older than 30 days (one aged 30 days + 1ms is purged) and keeps every
younger record (one aged 29 days is retained); `lastCleanup` is set to the
cleanup time **only when at least one record was deleted**, and is left
unchanged when nothing qualified. -/
theorem c7_cleanup_retention :
    ∀ (s : NotificationStorage) (now : Int),
      (dayMs ≤ now - s.lastCleanup →
        autoCleanupIfNeeded s now = cleanupOldNotifications s now) ∧
      (now - s.lastCleanup < dayMs → autoCleanupIfNeeded s now = s) ∧
      (∀ n ∈ s.notifications, n.createdAt ≤ now - 30 * dayMs →
        n ∉ (cleanupOldNotifications s now).notifications) ∧
      (∀ n ∈ s.notifications, now - 30 * dayMs < n.createdAt →
        n ∈ (cleanupOldNotifications s now).notifications) ∧
      ((∃ n ∈ s.notifications, n.createdAt ≤ now - 30 * dayMs) →
        (cleanupOldNotifications s now).lastCleanup = now) ∧
      ((∀ n ∈ s.notifications, now - 30 * dayMs < n.createdAt) →
        (cleanupOldNotifications s now).lastCleanup = s.lastCleanup) := by
  intro s now
  refine ⟨?_, ?_, ?_, ?_, ?_, ?_⟩
  · intro h
    simp [autoCleanupIfNeeded, h]
  · intro h
    rw [autoCleanupIfNeeded, if_neg (by omega)]
  · intro n hn hold
    simp only [cleanupOldNotifications]
    intro hmem
    have : n ∈ s.notifications.filter
        (fun m => now - 30 * dayMs < m.createdAt) := by
      split at hmem <;> simpa using hmem
    rw [List.mem_filter] at this
    have := this.2
    simp only [decide_eq_true_eq] at this
    omega
  · intro n hn hyoung
    simp only [cleanupOldNotifications]
    have hmem : n ∈ s.notifications.filter
        (fun m => now - 30 * dayMs < m.createdAt) := by
      rw [List.mem_filter]
      exact ⟨hn, by simpa using hyoung⟩
    split <;> simpa using hmem
  · rintro ⟨n, hn, hold⟩
    simp only [cleanupOldNotifications]
    rw [if_pos]
    by_contra hc
    push_neg at hc
    have hsub := @List.filter_sublist _
      (fun m => decide (now - 30 * dayMs < m.createdAt)) s.notifications
    have heq := hsub.eq_of_length_le hc
    have hmem : n ∈ s.notifications.filter
        (fun m => decide (now - 30 * dayMs < m.createdAt)) := by
      rw [heq]
      exact hn
    rw [List.mem_filter] at hmem
    have := hmem.2
    simp only [decide_eq_true_eq] at this
    omega
  · intro hall
    simp only [cleanupOldNotifications]
    rw [if_neg]
    have : s.notifications.filter (fun m => now - 30 * dayMs < m.createdAt)
        = s.notifications := by
      rw [List.filter_eq_self]
      intro n hn
      simpa using hall n hn
    rw [this]
    omega

theorem c7_witness :
    autoCleanupIfNeeded cleanupStore (100 * dayMs)
        = cleanupOldNotifications cleanupStore (100 * dayMs) ∧
    agedRecord "old" (70 * dayMs - 1) ∉
        (cleanupOldNotifications cleanupStore (100 * dayMs)).notifications ∧
    agedRecord "fresh" (71 * dayMs) ∈
        (cleanupOldNotifications cleanupStore (100 * dayMs)).notifications ∧
    (cleanupOldNotifications cleanupStore (100 * dayMs)).lastCleanup
        = 100 * dayMs := by
  obtain ⟨h1, _, h3, h4, h5, _⟩ :=
    c7_cleanup_retention cleanupStore (100 * dayMs)
  exact ⟨h1 (by decide), h3 _ (by decide) (by decide),
    h4 _ (by decide) (by decide),
    h5 ⟨agedRecord "old" (70 * dayMs - 1), by decide, by decide⟩⟩

/-- C7 counterexample: a cleanup triggered by the 1-day guard over a store
with nothing to purge does **not** update `lastCleanup` to the cleanup
time. -/
theorem c7_counterexample :
    dayMs ≤ dayMs - (⟨[], 0⟩ : NotificationStorage).lastCleanup ∧
    (autoCleanupIfNeeded ⟨[], 0⟩ dayMs).lastCleanup = 0 ∧
    (0 : Int) ≠ dayMs := by decide

theorem leadsWith_iff (pat s : List Char) :
    leadsWith pat s = true ↔ ∃ post, s = pat ++ post := by
  induction pat generalizing s with
  | nil =>
    simp [leadsWith]
  | cons a pa ih =>
    cases s with
    | nil => simp [leadsWith]
    | cons b sb =>
      simp only [leadsWith, Bool.and_eq_true, beq_iff_eq, ih,
        List.cons_append, List.cons.injEq]
      constructor
      · rintro ⟨hab, post, hpost⟩
        exact ⟨post, hab.symm, hpost⟩
      · rintro ⟨post, hab, hpost⟩
        exact ⟨hab.symm, post, hpost⟩

theorem occursIn_iff (pat s : List Char) :
    occursIn pat s = true ↔ ∃ pre post, s = pre ++ pat ++ post := by
  induction s with
  | nil =>
    simp only [occursIn, List.isEmpty_iff]
    constructor
    · intro h
      exact ⟨[], [], by simp [h]⟩
    · rintro ⟨pre, post, h⟩
      rcases pre with _ | ⟨c, pre⟩
      · rcases pat with _ | ⟨c, pat⟩
        · rfl
        · simp at h
      · simp at h
  | cons c rest ih =>
    simp only [occursIn, Bool.or_eq_true, leadsWith_iff, ih]
    constructor
    · rintro (⟨post, hpost⟩ | ⟨pre, post, hpp⟩)
      · exact ⟨[], post, by simp [hpost]⟩
      · exact ⟨c :: pre, post, by simp [hpp]⟩
    · rintro ⟨pre, post, hpp⟩
      rcases pre with _ | ⟨c', pre⟩
      · exact Or.inl ⟨post, by simpa using hpp⟩
      · simp only [List.cons_append, List.cons.injEq] at hpp
        exact Or.inr ⟨pre, post, hpp.2⟩

theorem strIncludes_iff (s pat : String) :
    strIncludes s pat = true ↔
      ∃ pre post, s.data = pre ++ pat.data ++ post := by
  simp [strIncludes, occursIn_iff]

/-- C9: `timingsFor` is total and returns the 12-tier important table
exactly when the event description contains the `[IMPORTANT]` marker as a
substring, and the 3-tier regular table otherwise; the important offsets
descend from one month (30 days) to 10 minutes, the regular offsets are
1 hour, 30 minutes, 10 minutes. -/
theorem c9_timing_policy :
    ∀ e : CalendarEvent,
      (timingsFor e = IMPORTANT_TIMINGS ∨ timingsFor e = REGULAR_TIMINGS) ∧
      (timingsFor e = IMPORTANT_TIMINGS ↔
        ∃ d pre post, e.description = some d ∧
          d.data = pre ++ "[IMPORTANT]".data ++ post) ∧
      IMPORTANT_TIMINGS.length = 12 ∧
      REGULAR_TIMINGS.length = 3 ∧
      IMPORTANT_TIMINGS.map (fun t => t.timeMs) =
        [2592000000, 604800000, 432000000, 259200000, 172800000, 86400000,
          43200000, 21600000, 10800000, 3600000, 1800000, 600000] ∧
      (IMPORTANT_TIMINGS.map (fun t => t.timeMs)).Pairwise (fun a b => b < a) ∧
      REGULAR_TIMINGS.map (fun t => t.timeMs) = [3600000, 1800000, 600000] := by
  intro e
  have hne : IMPORTANT_TIMINGS ≠ REGULAR_TIMINGS := by decide
  refine ⟨?_, ⟨?_, ?_⟩, by decide, by decide, by decide, by decide, by decide⟩
  · rw [timingsFor]
    split
    · exact Or.inl rfl
    · exact Or.inr rfl
  · intro h
    rw [timingsFor] at h
    split at h
    · rename_i himp
      rw [isImportantEvent] at himp
      rcases hdesc : e.description with _ | d
      · rw [hdesc] at himp
        simp at himp
      · rw [hdesc] at himp
        rw [strIncludes_iff] at himp
        obtain ⟨pre, post, hpp⟩ := himp
        exact ⟨d, pre, post, rfl, hpp⟩
    · exact absurd h.symm hne
  · rintro ⟨d, pre, post, hdesc, hpp⟩
    have himp : isImportantEvent e = true := by
      rw [isImportantEvent, hdesc]
      rw [strIncludes_iff]
      exact ⟨pre, post, hpp⟩
    rw [timingsFor, if_pos himp]

theorem mem_pushUnlessPresent {q : List ActiveNotification}
    {x n : ActiveNotification} (h : n ∈ pushUnlessPresent q x) :
    n ∈ q ∨ n = x := by
  rw [pushUnlessPresent] at h
  split at h
  · exact Or.inl h
  · simpa using List.mem_append.mp h

theorem mem_appendDedup {q items : List ActiveNotification}
    {n : ActiveNotification} (h : n ∈ appendDedup q items) :
    n ∈ q ∨ n ∈ items := by
  induction items generalizing q with
  | nil => exact Or.inl h
  | cons x xs ih =>
    rw [appendDedup, List.foldl_cons] at h
    rcases ih h with hq | hxs
    · rcases mem_pushUnlessPresent hq with hq' | hx
      · exact Or.inl hq'
      · exact Or.inr (hx ▸ List.mem_cons_self x xs)
    · exact Or.inr (List.mem_cons_of_mem x hxs)

theorem ite_storage_newNots (c : Prop) [Decidable c] (a : DueAcc)
    (st' : NotificationStorage) :
    (if c then { a with storage := st' } else a).newNots = a.newNots := by
  split <;> rfl

theorem dueStep_newNots (now : Int) (shown0 : List String)
    (q0 active0 : List ActiveNotification) (e : CalendarEvent) (acc : DueAcc)
    (t : NotificationTiming) :
    (dueStep now shown0 q0 active0 e acc t).newNots =
      if dueWindow (now - (e.startDate - t.timeMs)) ∧
          shown0.contains (getNotificationKey e t) = false ∧
          q0.any (fun n => n.id == getNotificationKey e t) = false ∧
          active0.any (fun n => n.id == getNotificationKey e t) = false
      then acc.newNots ++ [⟨getNotificationKey e t, e, t, now⟩]
      else acc.newNots := by
  simp only [dueStep]
  rw [ite_storage_newNots]
  split
  · rename_i hA
    split
    · rename_i hB
      rw [if_neg]
      rintro ⟨-, -, hq, ha⟩
      rcases hB with hB | hB
      · rw [hB] at hq
        exact Bool.true_eq_false ▸ hq
      · rw [hB] at ha
        exact Bool.true_eq_false ▸ ha
    · rename_i hB
      push_neg at hB
      rw [if_pos]
      refine ⟨⟨hA.1.1, hA.1.2⟩, ?_, ?_, ?_⟩
      · simpa using hA.2.2
      · simpa using hB.1
      · simpa using hB.2
  · rename_i hA
    rw [if_neg]
    rintro ⟨hw, hc, -, -⟩
    rw [dueWindow] at hw
    exact hA ⟨⟨hw.1, hw.2⟩, by omega, by rw [hc]; exact Bool.false_ne_true⟩

theorem duePassScan_newNots_window (now : Int) (shown0 : List String)
    (q0 active0 : List ActiveNotification) (events : List CalendarEvent)
    (stor : NotificationStorage) :
    ∀ n ∈ (duePassScan now shown0 q0 active0 events stor).newNots,
      dueWindow (now - (n.event.startDate - n.timing.timeMs)) := by
  have hstep : ∀ (e : CalendarEvent) (acc : DueAcc) (t : NotificationTiming),
      (∀ n ∈ acc.newNots,
        dueWindow (now - (n.event.startDate - n.timing.timeMs))) →
      ∀ n ∈ (dueStep now shown0 q0 active0 e acc t).newNots,
        dueWindow (now - (n.event.startDate - n.timing.timeMs)) := by
    intro e acc t hacc n hn
    rw [dueStep_newNots] at hn
    split at hn
    · rename_i hc
      rcases List.mem_append.mp hn with h | h
      · exact hacc n h
      · simp only [List.mem_singleton] at h
        subst h
        exact hc.1
    · exact hacc n hn
  have hinner : ∀ (e : CalendarEvent) (ts : List NotificationTiming)
      (acc : DueAcc),
      (∀ n ∈ acc.newNots,
        dueWindow (now - (n.event.startDate - n.timing.timeMs))) →
      ∀ n ∈ (ts.foldl (dueStep now shown0 q0 active0 e) acc).newNots,
        dueWindow (now - (n.event.startDate - n.timing.timeMs)) := by
    intro e ts
    induction ts with
    | nil => intro acc h; exact h
    | cons t ts ih => intro acc h; exact ih _ (hstep e acc t h)
  have houter : ∀ (evs : List CalendarEvent) (acc : DueAcc),
      (∀ n ∈ acc.newNots,
        dueWindow (now - (n.event.startDate - n.timing.timeMs))) →
      ∀ n ∈ (evs.foldl
          (fun a e => (timingsFor e).foldl (dueStep now shown0 q0 active0 e) a)
          acc).newNots,
        dueWindow (now - (n.event.startDate - n.timing.timeMs)) := by
    intro evs
    induction evs with
    | nil => intro acc h; exact h
    | cons e evs ih => intro acc h; exact ih _ (hinner e _ acc h)
  intro n hn
  exact houter events ⟨[], [], stor⟩ (by simp) n hn

/-- C6: classification by `delta = now − scheduledTime` in the due pass —
an event-tier pair is enqueued by `dueStep` exactly when `delta` lies in the
inclusive window `[0, 5 minutes]` (and the key is not dispatched, queued or
active); `delta = -1` and `delta = 5 minutes + 1` are outside the window,
`delta = 0` and `delta = 5 minutes` are inside; consequently anything the
due pass newly displays or enqueues lies within the window, so missed pairs
(`delta > 5 minutes`) are never enqueued by it. -/
theorem c6_due_window_classification :
    (∀ (now : Int) (shown0 : List String)
        (q0 active0 : List ActiveNotification) (e : CalendarEvent)
        (acc : DueAcc) (t : NotificationTiming),
      (dueStep now shown0 q0 active0 e acc t).newNots =
        if dueWindow (now - (e.startDate - t.timeMs)) ∧
            shown0.contains (getNotificationKey e t) = false ∧
            q0.any (fun n => n.id == getNotificationKey e t) = false ∧
            active0.any (fun n => n.id == getNotificationKey e t) = false
        then acc.newNots ++ [⟨getNotificationKey e t, e, t, now⟩]
        else acc.newNots) ∧
    ¬dueWindow (-1) ∧
    dueWindow 0 ∧
    dueWindow fiveMinMs ∧
    ¬dueWindow (fiveMinMs + 1) ∧
    (∀ (now : Int) (st : NotifState) (n : ActiveNotification),
      (n ∈ (checkForNotifications now st).activeNotifications →
        n ∈ st.activeNotifications ∨
          dueWindow (now - (n.event.startDate - n.timing.timeMs))) ∧
      (n ∈ (checkForNotifications now st).notificationQueue →
        n ∈ st.notificationQueue ∨
          dueWindow (now - (n.event.startDate - n.timing.timeMs)))) := by
  refine ⟨dueStep_newNots, by decide, by decide, by decide, by decide, ?_⟩
  intro now st n
  rcases hcd : st.calendarData with _ | events
  · constructor <;> intro hmem <;>
      simp only [checkForNotifications, hcd] at hmem <;> exact Or.inl hmem
  · have hwin := duePassScan_newNots_window now st.shownNotifications
      st.notificationQueue st.activeNotifications events st.storage
    constructor <;> intro hmem <;>
        simp only [checkForNotifications, hcd] at hmem <;>
        rcases hnew : (duePassScan now st.shownNotifications
            st.notificationQueue st.activeNotifications events
            st.storage).newNots with _ | ⟨first, rest⟩ <;>
        simp only [hnew] at hmem
    · exact Or.inl hmem
    · by_cases hae : st.activeNotifications.isEmpty = true
      · simp only [hae, if_true, List.mem_singleton] at hmem
        rw [hmem]
        exact Or.inr (hwin first (by rw [hnew]; exact List.mem_cons_self first rest))
      · simp only [hae, if_false] at hmem
        exact Or.inl hmem
    · exact Or.inl hmem
    · by_cases hae : st.activeNotifications.isEmpty = true
      · simp only [hae, if_true] at hmem
        rcases mem_appendDedup hmem with hq | hr
        · exact Or.inl hq
        · refine Or.inr (hwin n ?_)
          rw [hnew]
          exact List.mem_cons_of_mem first hr
      · simp only [hae, if_false] at hmem
        rcases mem_appendDedup hmem with hq | hr
        · exact Or.inl hq
        · exact Or.inr (hwin n (by rw [hnew]; exact hr))

theorem c6_witness :
    dueWindow (0 - ((mkEvent "e1" 3600000).startDate -
      ({ timeMs := 3600000, label := "1 hour" } : NotificationTiming).timeMs)) := by
  have h := (c6_due_window_classification.2.2.2.2.2 0 threeDueDelivered
    ⟨"e1-3600000", mkEvent "e1" 3600000, ⟨3600000, "1 hour"⟩, 0⟩).1 (by decide)
  exact h.resolve_left (by decide)

theorem findMostRecentMissed_eq_foldl (now es : Int)
    (ts : List NotificationTiming) :
    findMostRecentMissed now es ts = ts.foldl (missedSelStep now es) (none, 0) :=
  rfl

theorem missedSelStep_snd_le (now es : Int)
    (acc : Option NotificationTiming × Int) (t : NotificationTiming) :
    acc.2 ≤ (missedSelStep now es acc t).2 := by
  rw [missedSelStep]
  split
  · rename_i h
    exact le_of_lt h.2
  · exact le_refl _

theorem foldl_missedSelStep_snd_mono (now es : Int)
    (ts : List NotificationTiming) (acc : Option NotificationTiming × Int) :
    acc.2 ≤ (ts.foldl (missedSelStep now es) acc).2 := by
  induction ts generalizing acc with
  | nil => exact le_refl _
  | cons t ts ih =>
    rw [List.foldl_cons]
    exact le_trans (missedSelStep_snd_le now es acc t) (ih _)

theorem foldl_missedSelStep_ub (now es : Int) (ts : List NotificationTiming)
    (acc : Option NotificationTiming × Int) :
    ∀ t' ∈ ts, fiveMinMs < now - (es - t'.timeMs) →
      es - t'.timeMs ≤ (ts.foldl (missedSelStep now es) acc).2 := by
  induction ts generalizing acc with
  | nil =>
    intro t' h
    cases h
  | cons t ts ih =>
    intro t' ht' hmiss
    rcases List.mem_cons.mp ht' with rfl | htail
    · rw [List.foldl_cons]
      refine le_trans ?_ (foldl_missedSelStep_snd_mono now es ts _)
      rw [missedSelStep]
      split
      · exact le_refl _
      · rename_i h
        push_neg at h
        exact h hmiss
    · rw [List.foldl_cons]
      exact ih _ t' htail hmiss

theorem foldl_missedSelStep_shape (now es : Int)
    (ts : List NotificationTiming) (acc : Option NotificationTiming × Int) :
    ts.foldl (missedSelStep now es) acc = acc ∨
      ∃ t' ∈ ts, fiveMinMs < now - (es - t'.timeMs) ∧
        ts.foldl (missedSelStep now es) acc = (some t', es - t'.timeMs) ∧
        acc.2 < es - t'.timeMs := by
  induction ts generalizing acc with
  | nil => exact Or.inl rfl
  | cons t ts ih =>
    rw [List.foldl_cons]
    have hstep : missedSelStep now es acc t = acc ∨
        (fiveMinMs < now - (es - t.timeMs) ∧
          missedSelStep now es acc t = (some t, es - t.timeMs) ∧
          acc.2 < es - t.timeMs) := by
      rw [missedSelStep]
      split
      · rename_i h
        exact Or.inr ⟨h.1, rfl, h.2⟩
      · exact Or.inl rfl
    rcases hstep with heq | ⟨hmiss, heq, hlt⟩
    · rw [heq]
      rcases ih acc with h | ⟨t', ht', hm, hfold, hlt'⟩
      · exact Or.inl h
      · exact Or.inr ⟨t', List.mem_cons_of_mem t ht', hm, hfold, hlt'⟩
    · rw [heq]
      rcases ih (some t, es - t.timeMs) with h | ⟨t', ht', hm, hfold, hlt'⟩
      · exact Or.inr ⟨t, List.mem_cons_self t ts, hmiss, h, hlt⟩
      · refine Or.inr ⟨t', List.mem_cons_of_mem t ht', hm, hfold, ?_⟩
        have : es - t.timeMs < es - t'.timeMs := hlt'
        omega

/-- C5 (amended): in the missed pass, among the tiers that are missed
(`now − scheduledTime > 5 minutes`) **and have a positive scheduled time**,
the one with the latest scheduled time is selected; when every missed tier
has scheduled time ≤ 0 (events at or before the epoch) nothing is selected,
because the fold's best-so-far sentinel starts at 0. -/
theorem c5_latest_missed_selection :
    ∀ (now eventStart : Int) (ts : List NotificationTiming),
      ((∃ t ∈ ts, fiveMinMs < now - (eventStart - t.timeMs) ∧
          0 < eventStart - t.timeMs) →
        ∃ t', (findMostRecentMissed now eventStart ts).1 = some t' ∧
          t' ∈ ts ∧ fiveMinMs < now - (eventStart - t'.timeMs) ∧
          0 < eventStart - t'.timeMs ∧
          ∀ t ∈ ts, fiveMinMs < now - (eventStart - t.timeMs) →
            eventStart - t.timeMs ≤ eventStart - t'.timeMs) ∧
      ((∀ t ∈ ts, fiveMinMs < now - (eventStart - t.timeMs) →
          eventStart - t.timeMs ≤ 0) →
        (findMostRecentMissed now eventStart ts).1 = none) := by
  intro now es ts
  constructor
  · rintro ⟨t, ht, hmiss, hpos⟩
    rw [findMostRecentMissed_eq_foldl]
    have hub := foldl_missedSelStep_ub now es ts (none, 0) t ht hmiss
    rcases foldl_missedSelStep_shape now es ts (none, 0) with heq | hsel
    · rw [heq] at hub
      exfalso
      have hub' : es - t.timeMs ≤ 0 := hub
      omega
    · obtain ⟨t', ht', hm, hfold, hlt⟩ := hsel
      refine ⟨t', ?_, ht', hm, ?_, ?_⟩
      · rw [hfold]
      · have hlt' : (0 : Int) < es - t'.timeMs := hlt
        exact hlt'
      · intro t'' ht'' hm''
        have hub'' := foldl_missedSelStep_ub now es ts (none, 0) t'' ht'' hm''
        rw [hfold] at hub''
        exact hub''
  · intro hall
    rw [findMostRecentMissed_eq_foldl]
    rcases foldl_missedSelStep_shape now es ts (none, 0) with heq | hsel
    · rw [heq]
    · obtain ⟨t', ht', hm, hfold, hlt⟩ := hsel
      exfalso
      have h1 := hall t' ht' hm
      have h2 : (0 : Int) < es - t'.timeMs := hlt
      omega

theorem c5_witness :
    ∃ t', (findMostRecentMissed 1000000000 1000000000 REGULAR_TIMINGS).1
        = some t' ∧
      t' ∈ REGULAR_TIMINGS ∧
      fiveMinMs < 1000000000 - ((1000000000 : Int) - t'.timeMs) ∧
      0 < (1000000000 : Int) - t'.timeMs ∧
      ∀ t ∈ REGULAR_TIMINGS,
        fiveMinMs < 1000000000 - ((1000000000 : Int) - t.timeMs) →
        (1000000000 : Int) - t.timeMs ≤ 1000000000 - t'.timeMs :=
  (c5_latest_missed_selection 1000000000 1000000000 REGULAR_TIMINGS).1
    ⟨⟨600000, "10 minutes"⟩, by decide, by decide, by decide⟩

/-- C5 counterexample: for an event starting at the epoch, every regular
tier is missed at `now = 10^6`, yet no tier at all is selected — the claim
"exactly the missed tier with the latest scheduledTime is selected" fails
because every scheduled time is ≤ 0. -/
theorem c5_counterexample :
    ((⟨600000, "10 minutes"⟩ : NotificationTiming) ∈ REGULAR_TIMINGS ∧
      fiveMinMs < 1000000 - ((0 : Int) - 600000)) ∧
    (findMostRecentMissed 1000000 0 REGULAR_TIMINGS).1 = none := by decide

theorem checkForNotifications_hasCheckedMissed (now : Int) (st : NotifState) :
    (checkForNotifications now st).hasCheckedMissed = st.hasCheckedMissed := by
  rcases hcd : st.calendarData with _ | events
  · simp [checkForNotifications, hcd]
  · simp only [checkForNotifications, hcd]
    rcases hnew : (duePassScan now st.shownNotifications st.notificationQueue
        st.activeNotifications events st.storage).newNots with _ | ⟨f, r⟩
    · simp [hnew]
    · simp only [hnew]
      by_cases hae : st.activeNotifications.isEmpty = true <;> simp [hae]

theorem deliverStep_hasCheckedMissed (now : Int)
    (events : List CalendarEvent) (st : NotifState) :
    (deliverStep now events st).hasCheckedMissed = true := by
  rw [deliverStep]
  split
  · rename_i h
    exact h
  · rfl

/-- C4 (amended): the missed pass runs exactly once per **process lifetime**,
on the first calendar-data delivery: along any trace of engine events
started with the `hasCheckedMissed` latch unset, it runs once if the trace
contains a delivery and never otherwise; once the latch is set it never runs
again, so later deliveries and all timer ticks trigger none. -/
theorem c4_missed_pass_once_per_process :
    ∀ (st : NotifState) (trace : List EngineEvent),
      (st.hasCheckedMissed = true → missedRuns st trace = 0) ∧
      (st.hasCheckedMissed = false →
        missedRuns st trace =
          if trace.any EngineEvent.isDeliver then 1 else 0) := by
  intro st trace
  induction trace generalizing st with
  | nil => exact ⟨fun _ => rfl, fun _ => by simp [missedRuns]⟩
  | cons ev rest ih =>
    cases ev with
    | tick now =>
      constructor
      · intro h
        simp only [missedRuns]
        have hpres : (applyEvent st (.tick now)).hasCheckedMissed = true := by
          rw [applyEvent, checkForNotifications_hasCheckedMissed]
          exact h
        rw [(ih _).1 hpres]
      · intro h
        simp only [missedRuns]
        have hpres : (applyEvent st (.tick now)).hasCheckedMissed = false := by
          rw [applyEvent, checkForNotifications_hasCheckedMissed]
          exact h
        rw [(ih _).2 hpres]
        simp [List.any_cons, EngineEvent.isDeliver]
    | deliver now events =>
      have hset : (applyEvent st (.deliver now events)).hasCheckedMissed
          = true := by
        rw [applyEvent, deliverStep_hasCheckedMissed]
      constructor
      · intro h
        simp only [missedRuns]
        simp only [h, if_true]
        rw [(ih _).1 hset]
      · intro h
        simp only [missedRuns]
        simp only [h]
        rw [(ih _).1 hset]
        simp [List.any_cons, EngineEvent.isDeliver]

theorem c4_witness :
    missedRuns (initialNotifState ⟨[], 0⟩)
      [EngineEvent.tick 0, EngineEvent.deliver 0 [], EngineEvent.tick 60000,
        EngineEvent.deliver 120000 []] = 1 := by
  have h := (c4_missed_pass_once_per_process (initialNotifState ⟨[], 0⟩)
    [EngineEvent.tick 0, EngineEvent.deliver 0 [], EngineEvent.tick 60000,
      EngineEvent.deliver 120000 []]).2 rfl
  rw [h]
  decide

/-- C4 counterexample: two consecutive deliveries trigger only one
missed-pass invocation, not one per delivery. -/
theorem c4_counterexample :
    missedRuns (initialNotifState ⟨[], 0⟩)
        [EngineEvent.deliver 0 [], EngineEvent.deliver 0 []] = 1 ∧
    ([EngineEvent.deliver 0 [], EngineEvent.deliver 0 []].countP
        EngineEvent.isDeliver) = 2 := by decide

theorem find?_filter_other (l : List StoredNotification) (mid K : String)
    (h : mid ≠ K) :
    (l.filter (fun m => !(m.id == mid))).find? (fun n => n.id == K)
      = l.find? (fun n => n.id == K) := by
  induction l with
  | nil => rfl
  | cons x xs ih =>
    by_cases hx : x.id = mid
    · have hxK : (x.id == K) = false := by
        rw [beq_eq_false_iff_ne]
        rw [hx]
        exact h
      rw [List.filter_cons, if_neg (by simp [hx]), ih,
        List.find?_cons_of_neg _ (by simp [hxK])]
    · rw [List.filter_cons, if_pos (by simp [hx])]
      by_cases hK : x.id = K
      · rw [List.find?_cons_of_pos _ (by simp [hK]),
          List.find?_cons_of_pos _ (by simp [hK])]
      · rw [List.find?_cons_of_neg _ (by simp [hK]),
          List.find?_cons_of_neg _ (by simp [hK]), ih]

theorem notificationExists_saveNotification (s : NotificationStorage)
    (m : StoredNotification) (K : String) (h : m.id ≠ K) :
    notificationExists (saveNotification s m) K = notificationExists s K := by
  rw [notificationExists, notificationExists, saveNotification]
  simp only [List.find?_append]
  rw [find?_filter_other _ _ _ h]
  have hm : ([m].find? (fun n => n.id == K)) = none := by
    rw [List.find?_cons_of_neg _ (by simp [h])]
    rfl
  rw [hm, Option.or_none]

theorem missedStep_dismissed_invariant (now : Int) (K : String)
    (acc : MissedAcc) (e : CalendarEvent)
    (h : notificationExists acc.storage K = true ∧
      ∀ n ∈ acc.missed, n.id ≠ K) :
    notificationExists (missedStep now acc e).storage K = true ∧
      ∀ n ∈ (missedStep now acc e).missed, n.id ≠ K := by
  simp only [missedStep]
  split
  · exact h
  · split
    · exact h
    · rename_i t hfind
      split
      · exact h
      · rename_i hex
        have hkey : getNotificationKey e t ≠ K := by
          intro hk
          rw [hk] at hex
          exact hex h.1
        constructor
        · rw [notificationExists_saveNotification _ _ _ hkey]
          exact h.1
        · intro n hn
          rcases List.mem_append.mp hn with hold | hnew
          · exact h.2 n hold
          · simp only [List.mem_singleton] at hnew
            rw [hnew]
            exact hkey

theorem missedFold_dismissed_invariant (now : Int) (K : String)
    (events : List CalendarEvent) (acc : MissedAcc)
    (h : notificationExists acc.storage K = true ∧
      ∀ n ∈ acc.missed, n.id ≠ K) :
    notificationExists (events.foldl (missedStep now) acc).storage K = true ∧
      ∀ n ∈ (events.foldl (missedStep now) acc).missed, n.id ≠ K := by
  induction events generalizing acc with
  | nil => exact h
  | cons e evs ih =>
    rw [List.foldl_cons]
    exact ih _ (missedStep_dismissed_invariant now K acc e h)

theorem appendDedup_eq_append (q items : List ActiveNotification) :
    ∃ items', appendDedup q items = q ++ items' ∧
      List.Sublist items' items := by
  induction items generalizing q with
  | nil => exact ⟨[], by simp [appendDedup], List.Sublist.refl []⟩
  | cons x xs ih =>
    rw [appendDedup, List.foldl_cons, pushUnlessPresent]
    split
    · obtain ⟨i', hi', hsub⟩ := ih q
      exact ⟨i', hi', hsub.cons x⟩
    · obtain ⟨i', hi', hsub⟩ := ih (q ++ [x])
      refine ⟨x :: i', ?_, hsub.cons₂ x⟩
      rw [appendDedup] at hi'
      rw [hi', List.append_assoc]
      rfl

theorem duePassScan_newNots_storage_free (now : Int) (shown0 : List String)
    (q0 active0 : List ActiveNotification) (events : List CalendarEvent)
    (s₁ s₂ : NotificationStorage) :
    (duePassScan now shown0 q0 active0 events s₁).newNots
      = (duePassScan now shown0 q0 active0 events s₂).newNots := by
  have hstep : ∀ (e : CalendarEvent) (acc₁ acc₂ : DueAcc)
      (t : NotificationTiming), acc₁.newNots = acc₂.newNots →
      (dueStep now shown0 q0 active0 e acc₁ t).newNots
        = (dueStep now shown0 q0 active0 e acc₂ t).newNots := by
    intro e acc₁ acc₂ t h
    rw [dueStep_newNots, dueStep_newNots, h]
  have hinner : ∀ (e : CalendarEvent) (ts : List NotificationTiming)
      (acc₁ acc₂ : DueAcc), acc₁.newNots = acc₂.newNots →
      (ts.foldl (dueStep now shown0 q0 active0 e) acc₁).newNots
        = (ts.foldl (dueStep now shown0 q0 active0 e) acc₂).newNots := by
    intro e ts
    induction ts with
    | nil => intro acc₁ acc₂ h; exact h
    | cons t ts ih =>
      intro acc₁ acc₂ h
      exact ih _ _ (hstep e acc₁ acc₂ t h)
  have houter : ∀ (evs : List CalendarEvent) (acc₁ acc₂ : DueAcc),
      acc₁.newNots = acc₂.newNots →
      ((evs.foldl (fun a e =>
          (timingsFor e).foldl (dueStep now shown0 q0 active0 e) a)
        acc₁).newNots
        = (evs.foldl (fun a e =>
            (timingsFor e).foldl (dueStep now shown0 q0 active0 e) a)
          acc₂).newNots) := by
    intro evs
    induction evs with
    | nil => intro acc₁ acc₂ h; exact h
    | cons e evs ih =>
      intro acc₁ acc₂ h
      exact ih _ _ (hinner e _ acc₁ acc₂ h)
  exact houter events ⟨[], [], s₁⟩ ⟨[], [], s₂⟩ rfl

/-- C1 (amended): a key K whose stored record is dismissed is never
re-enqueued by the missed pass — the count of queue entries with id K is
unchanged by `checkForMissedNotifications` — but the claim fails for the due
pass: `checkForNotifications` consults only the in-memory dispatched set,
queue and active slot (its candidate selection is independent of the
persistent store), so in a fresh process a dismissed key still inside its
5-minute due window is re-enqueued. -/
theorem c1_dismissed_dedup :
    (∀ (now : Int) (st : NotifState) (K : String),
      notificationExists st.storage K = true →
      ((checkForMissedNotifications now st).notificationQueue.countP
          (fun n => n.id == K))
        = st.notificationQueue.countP (fun n => n.id == K)) ∧
    (∀ (now : Int) (shown0 : List String)
        (q0 active0 : List ActiveNotification) (events : List CalendarEvent)
        (s₁ s₂ : NotificationStorage),
      (duePassScan now shown0 q0 active0 events s₁).newNots
        = (duePassScan now shown0 q0 active0 events s₂).newNots) := by
  refine ⟨?_, duePassScan_newNots_storage_free⟩
  intro now st K hK
  rcases hcd : st.calendarData with _ | events
  · simp [checkForMissedNotifications, hcd]
  · simp only [checkForMissedNotifications, hcd]
    obtain ⟨items', heq, hsub⟩ := appendDedup_eq_append st.notificationQueue
      (events.foldl (missedStep now)
        ⟨[], st.storage, st.shownNotifications, []⟩).missed
    rw [heq, List.countP_append]
    have hinv := missedFold_dismissed_invariant now K events
      ⟨[], st.storage, st.shownNotifications, []⟩ ⟨hK, by simp⟩
    have hzero : (items'.countP (fun n => n.id == K)) = 0 := by
      rw [List.countP_eq_zero]
      intro n hn
      have hne := hinv.2 n (hsub.subset hn)
      simp [hne]
    rw [hzero, Nat.add_zero]

theorem c1_witness :
    ((checkForMissedNotifications 0 freshOverDismissed).notificationQueue.countP
        (fun n => n.id == "e1-3600000"))
      = freshOverDismissed.notificationQueue.countP
          (fun n => n.id == "e1-3600000") :=
  c1_dismissed_dedup.1 0 freshOverDismissed "e1-3600000" (by decide)

/-- C1 counterexample: over a store in which key `e1-3600000` is dismissed,
a fresh process (empty dispatched set) that receives the event while the key
is inside its 5-minute due window displays/enqueues that very key on the
first due pass — the due pass never asks the store about dismissal. -/
theorem c1_counterexample :
    notificationExists dismissedStore "e1-3600000" = true ∧
    freshOverDismissed.shownNotifications = [] ∧
    ((freshAfterDuePass.activeNotifications
        ++ freshAfterDuePass.notificationQueue).map (fun n => n.id))
      = ["e1-3600000"] := by
  refine ⟨by decide, by decide, by decide⟩

theorem checkForMissedNotifications_active (now : Int) (st : NotifState) :
    (checkForMissedNotifications now st).activeNotifications
      = st.activeNotifications := by
  rcases hcd : st.calendarData with _ | events <;>
    simp [checkForMissedNotifications, hcd]

theorem loadMissedFold_active (l : List StoredNotification) (st : NotifState) :
    (l.foldl
        (fun s n =>
          { s with
            storage := markAsShown s.storage n.id
            shownNotifications := s.shownNotifications ++ [n.id] })
        st).activeNotifications = st.activeNotifications := by
  induction l generalizing st with
  | nil => rfl
  | cons x xs ih =>
    rw [List.foldl_cons]
    exact ih _

theorem loadMissedNotifications_active (now : Int) (st : NotifState) :
    (loadMissedNotifications now st).activeNotifications
      = st.activeNotifications := by
  rw [loadMissedNotifications]
  split
  · rfl
  · exact loadMissedFold_active _ _

theorem deliverStep_active (now : Int) (events : List CalendarEvent)
    (st : NotifState) :
    (deliverStep now events st).activeNotifications
      = st.activeNotifications := by
  rw [deliverStep]
  split
  · rfl
  · exact checkForMissedNotifications_active now _

theorem checkForNotifications_active (now : Int) (st : NotifState) :
    (checkForNotifications now st).activeNotifications
        = st.activeNotifications ∨
      ∃ a, (checkForNotifications now st).activeNotifications = [a] := by
  rcases hcd : st.calendarData with _ | events
  · left
    simp [checkForNotifications, hcd]
  · simp only [checkForNotifications, hcd]
    rcases hnew : (duePassScan now st.shownNotifications st.notificationQueue
        st.activeNotifications events st.storage).newNots with _ | ⟨f, r⟩
    · simp only [hnew]
      exact Or.inl trivial
    · simp only [hnew]
      by_cases hae : st.activeNotifications.isEmpty = true
      · simp only [hae, if_true]
        exact Or.inr ⟨f, rfl⟩
      · simp only [hae, if_false]
        exact Or.inl rfl

theorem promoteIfIdle_active (st : NotifState) :
    (promoteIfIdle st).activeNotifications = st.activeNotifications ∨
      ∃ a, (promoteIfIdle st).activeNotifications = [a] := by
  rw [promoteIfIdle]
  split
  · exact Or.inl rfl
  · split
    · exact Or.inr ⟨_, rfl⟩
    · exact Or.inl rfl

theorem advanceQueue_active (st : NotifState) :
    (advanceQueue st).activeNotifications = st.activeNotifications ∨
      ∃ a, (advanceQueue st).activeNotifications = [a] := by
  simp only [advanceQueue]
  split
  · exact Or.inl rfl
  · split
    · exact Or.inl rfl
    · split
      · exact Or.inr ⟨_, rfl⟩
      · exact Or.inl rfl

theorem removeNotification_active_le (st : NotifState) (id : String)
    (h : st.activeNotifications.length ≤ 1) :
    (removeNotification st id).activeNotifications.length ≤ 1 := by
  rw [removeNotification]
  have hfil : (st.activeNotifications.filter
      (fun n => !(n.id == id))).length ≤ 1 :=
    le_trans (st.activeNotifications.length_filter_le _) h
  rcases advanceQueue_active
      { st with
        activeNotifications :=
          st.activeNotifications.filter (fun n => !(n.id == id))
        storage := markAsDismissed (markAsShown st.storage id) id }
    with hadv | ⟨a, hadv⟩
  · rcases promoteIfIdle_active (advanceQueue _) with hp | ⟨b, hp⟩
    · rw [hp, hadv]
      exact hfil
    · rw [hp]
      simp
  · rcases promoteIfIdle_active (advanceQueue _) with hp | ⟨b, hp⟩
    · rw [hp, hadv]
      simp
    · rw [hp]
      simp

theorem notifStep_active_le (st st' : NotifState) (h : NotifStep st st')
    (hle : st.activeNotifications.length ≤ 1) :
    st'.activeNotifications.length ≤ 1 := by
  cases h with
  | deliver now events st =>
    rw [deliverStep_active]
    exact hle
  | tick now st =>
    rcases checkForNotifications_active now st with h | ⟨a, h⟩
    · rw [h]
      exact hle
    · rw [h]
      simp
  | rehydrate now st =>
    rw [loadMissedNotifications_active]
    exact hle
  | promote st =>
    rcases promoteIfIdle_active st with h | ⟨a, h⟩
    · rw [h]
      exact hle
    · rw [h]
      simp
  | dismiss st =>
    rw [dismissActive]
    split
    · exact hle
    · exact removeNotification_active_le st _ hle

theorem dismissActive_spec (st : NotifState) (A : ActiveNotification)
    (h : st.activeNotifications = [A]) :
    (dismissActive st).storage
        = markAsDismissed (markAsShown st.storage A.id) A.id ∧
    (dismissActive st).notificationQueue = st.notificationQueue.tail ∧
    (dismissActive st).activeNotifications
      = (match st.notificationQueue.tail with
          | [] => []
          | n :: _ => [n]) := by
  rcases hq : st.notificationQueue with _ | ⟨x, rest⟩
  · refine ⟨?_, ?_, ?_⟩ <;>
      simp [dismissActive, h, removeNotification, advanceQueue, promoteIfIdle,
        hq]
  · rcases rest with _ | ⟨y, rest'⟩ <;>
      refine ⟨?_, ?_, ?_⟩ <;>
      simp [dismissActive, h, removeNotification, advanceQueue, promoteIfIdle,
        hq]

/-- C2 (amended): at every state reachable from a mount the active slot
holds at most one notification; and on the Showing-to-Idle transition the
store record for the active item's key is marked `shown = true` and
`dismissed = true`, the queue is popped once, and the head of the *popped*
queue (if any) becomes the next active item.  This matches the claim when
the active item itself sat at the queue head (the promotion path), but when
the active item was displayed directly without being enqueued (the due-pass
direct-show path) the waiting queue head is discarded unseen and the item
after it becomes active. -/
theorem c2_queue_machine :
    (∀ (store : NotificationStorage) (s : NotifState),
      NotifReachable (initialNotifState store) s →
      s.activeNotifications.length ≤ 1) ∧
    (∀ (s : NotifState) (A : ActiveNotification),
      s.activeNotifications = [A] →
      (dismissActive s).storage
          = markAsDismissed (markAsShown s.storage A.id) A.id ∧
      (dismissActive s).notificationQueue = s.notificationQueue.tail ∧
      (dismissActive s).activeNotifications
        = (match s.notificationQueue.tail with
            | [] => []
            | n :: _ => [n])) := by
  constructor
  · intro store s h
    induction h with
    | refl => simp [initialNotifState]
    | step h hs ih => exact notifStep_active_le _ _ hs ih
  · exact dismissActive_spec

theorem c2_witness :
    threeDueShowing.activeNotifications.length ≤ 1 ∧
    (dismissActive threeDueShowing).notificationQueue
      = threeDueShowing.notificationQueue.tail := by
  constructor
  · exact c2_queue_machine.1 ⟨[], 0⟩ threeDueShowing
      (NotifReachable.step
        (NotifReachable.step (NotifReachable.refl _)
          (NotifStep.deliver 0 threeDueEvents _))
        (NotifStep.tick 0 _))
  · exact (c2_queue_machine.2 threeDueShowing
      ⟨"e1-3600000", mkEvent "e1" 3600000, ⟨3600000, "1 hour"⟩, 0⟩
      (by decide)).2.1

/-- C2 counterexample: a reachable Showing state with two queued items in
which dismissing the active item does **not** promote the queue head: the
head `e2-3600000` is dropped without ever being displayed and `e3-3600000`
becomes active instead. -/
theorem c2_counterexample :
    NotifReachable (initialNotifState ⟨[], 0⟩) threeDueShowing ∧
    threeDueShowing.activeNotifications.map (fun n => n.id)
      = ["e1-3600000"] ∧
    threeDueShowing.notificationQueue.map (fun n => n.id)
      = ["e2-3600000", "e3-3600000"] ∧
    (dismissActive threeDueShowing).activeNotifications.map (fun n => n.id)
      = ["e3-3600000"] ∧
    (dismissActive threeDueShowing).notificationQueue.map (fun n => n.id)
      = ["e3-3600000"] := by
  refine ⟨?_, by decide, by decide, by decide, by decide⟩
  exact NotifReachable.step
    (NotifReachable.step (NotifReachable.refl _)
      (NotifStep.deliver 0 threeDueEvents _))
    (NotifStep.tick 0 _)

theorem append_dash_inj :
    ∀ (a b d₁ d₂ : List Char), ('-' : Char) ∉ d₁ → ('-' : Char) ∉ d₂ →
      a ++ '-' :: d₁ = b ++ '-' :: d₂ → a = b ∧ d₁ = d₂ := by
  intro a
  induction a with
  | nil =>
    intro b d₁ d₂ h₁ h₂ heq
    rcases b with _ | ⟨c, b'⟩
    · simp only [List.nil_append, List.cons.injEq] at heq
      exact ⟨rfl, heq.2⟩
    · simp only [List.nil_append, List.cons_append, List.cons.injEq] at heq
      exfalso
      apply h₁
      rw [heq.2]
      exact List.mem_append_right b' (List.mem_cons_self '-' d₂)
  | cons c a' ih =>
    intro b d₁ d₂ h₁ h₂ heq
    rcases b with _ | ⟨c', b'⟩
    · simp only [List.nil_append, List.cons_append, List.cons.injEq] at heq
      exfalso
      apply h₂
      rw [← heq.2]
      exact List.mem_append_right a' (List.mem_cons_self '-' d₁)
    · simp only [List.cons_append, List.cons.injEq] at heq
      obtain ⟨h₃, h₄⟩ := ih b' d₁ d₂ h₁ h₂ heq.2
      exact ⟨by rw [heq.1, h₃], h₄⟩

theorem getNotificationKey_inj (e₁ e₂ : CalendarEvent)
    (t₁ t₂ : NotificationTiming)
    (h₁ : ('-' : Char) ∉ (toString t₁.timeMs).data)
    (h₂ : ('-' : Char) ∉ (toString t₂.timeMs).data)
    (heq : getNotificationKey e₁ t₁ = getNotificationKey e₂ t₂) :
    e₁.id = e₂.id ∧ toString t₁.timeMs = toString t₂.timeMs := by
  rw [getNotificationKey, getNotificationKey] at heq
  have hdata := congrArg String.data heq
  simp only [String.data_append] at hdata
  simp only [List.append_assoc, List.singleton_append] at hdata
  obtain ⟨hid, hts⟩ := append_dash_inj _ _ _ _ h₁ h₂ hdata
  exact ⟨String.ext hid, String.ext hts⟩

theorem timingsFor_dashfree (e : CalendarEvent) :
    ∀ t ∈ timingsFor e, ('-' : Char) ∉ (toString t.timeMs).data := by
  rw [timingsFor]
  split
  · decide
  · decide

theorem timingsFor_pairwise_toString (e : CalendarEvent) :
    (timingsFor e).Pairwise
      (fun t t' => toString t.timeMs ≠ toString t'.timeMs) := by
  rw [timingsFor]
  split
  · decide
  · decide

theorem pushUnlessPresent_nodup (q : List ActiveNotification)
    (x : ActiveNotification) (h : (q.map (fun n => n.id)).Nodup) :
    ((pushUnlessPresent q x).map (fun n => n.id)).Nodup := by
  rw [pushUnlessPresent]
  split
  · exact h
  · rename_i hany
    rw [List.map_append]
    refine List.Nodup.append h (List.nodup_singleton _) ?_
    intro a ha hb
    simp only [List.map_cons, List.map_nil, List.mem_singleton] at hb
    rcases List.mem_map.mp ha with ⟨m, hm, hid⟩
    exact hany (List.any_eq_true.mpr ⟨m, hm, by simp [hid, hb]⟩)

theorem appendDedup_nodup (q items : List ActiveNotification)
    (h : (q.map (fun n => n.id)).Nodup) :
    ((appendDedup q items).map (fun n => n.id)).Nodup := by
  induction items generalizing q with
  | nil => exact h
  | cons x xs ih =>
    rw [appendDedup, List.foldl_cons]
    exact ih _ (pushUnlessPresent_nodup q x h)

theorem appendDedup_added_fresh :
    ∀ (items q : List ActiveNotification) (n' : ActiveNotification),
      n' ∈ appendDedup q items → n' ∉ q → ∀ m ∈ q, m.id ≠ n'.id := by
  intro items
  induction items with
  | nil =>
    intro q n' hmem hnot
    exact absurd hmem hnot
  | cons x xs ih =>
    intro q n' hmem hnot m hm
    rw [appendDedup, List.foldl_cons] at hmem
    by_cases hp : n' ∈ pushUnlessPresent q x
    · rw [pushUnlessPresent] at hp
      split at hp
      · exact absurd hp hnot
      · rename_i hany
        rcases List.mem_append.mp hp with h' | h'
        · exact absurd h' hnot
        · rw [List.mem_singleton] at h'
          subst h'
          intro heq
          exact hany (List.any_eq_true.mpr ⟨m, hm, by simp [heq]⟩)
    · have hmq : m ∈ pushUnlessPresent q x := by
        rw [pushUnlessPresent]
        split
        · exact hm
        · exact List.mem_append_left _ hm
      exact ih (pushUnlessPresent q x) n' hmem hp m hmq

theorem duePassScan_newNots_fresh (now : Int) (shown0 : List String)
    (q0 active0 : List ActiveNotification) (events : List CalendarEvent)
    (stor : NotificationStorage) :
    ∀ n ∈ (duePassScan now shown0 q0 active0 events stor).newNots,
      (q0.any (fun m => m.id == n.id)) = false ∧
      (active0.any (fun m => m.id == n.id)) = false := by
  have hstep : ∀ (e : CalendarEvent) (acc : DueAcc) (t : NotificationTiming),
      (∀ n ∈ acc.newNots, (q0.any (fun m => m.id == n.id)) = false ∧
        (active0.any (fun m => m.id == n.id)) = false) →
      ∀ n ∈ (dueStep now shown0 q0 active0 e acc t).newNots,
        (q0.any (fun m => m.id == n.id)) = false ∧
        (active0.any (fun m => m.id == n.id)) = false := by
    intro e acc t hacc n hn
    rw [dueStep_newNots] at hn
    split at hn
    · rename_i hc
      rcases List.mem_append.mp hn with h | h
      · exact hacc n h
      · simp only [List.mem_singleton] at h
        subst h
        exact ⟨hc.2.2.1, hc.2.2.2⟩
    · exact hacc n hn
  have hinner : ∀ (e : CalendarEvent) (ts : List NotificationTiming)
      (acc : DueAcc),
      (∀ n ∈ acc.newNots, (q0.any (fun m => m.id == n.id)) = false ∧
        (active0.any (fun m => m.id == n.id)) = false) →
      ∀ n ∈ (ts.foldl (dueStep now shown0 q0 active0 e) acc).newNots,
        (q0.any (fun m => m.id == n.id)) = false ∧
        (active0.any (fun m => m.id == n.id)) = false := by
    intro e ts
    induction ts with
    | nil => intro acc h; exact h
    | cons t ts ih => intro acc h; exact ih _ (hstep e acc t h)
  have houter : ∀ (evs : List CalendarEvent) (acc : DueAcc),
      (∀ n ∈ acc.newNots, (q0.any (fun m => m.id == n.id)) = false ∧
        (active0.any (fun m => m.id == n.id)) = false) →
      ∀ n ∈ (evs.foldl (fun a e =>
          (timingsFor e).foldl (dueStep now shown0 q0 active0 e) a)
        acc).newNots,
        (q0.any (fun m => m.id == n.id)) = false ∧
        (active0.any (fun m => m.id == n.id)) = false := by
    intro evs
    induction evs with
    | nil => intro acc h; exact h
    | cons e evs ih => intro acc h; exact ih _ (hinner e _ acc h)
  exact houter events ⟨[], [], stor⟩ (by simp)

theorem dueInner_nodup (now : Int) (shown0 : List String)
    (q0 active0 : List ActiveNotification) (e : CalendarEvent) :
    ∀ (ts : List NotificationTiming) (acc : DueAcc),
      (acc.newNots.map (fun n => n.id)).Nodup →
      (∀ n ∈ acc.newNots, ∀ t ∈ ts, n.id ≠ getNotificationKey e t) →
      ts.Pairwise (fun t t' => toString t.timeMs ≠ toString t'.timeMs) →
      (∀ t ∈ ts, ('-' : Char) ∉ (toString t.timeMs).data) →
      ((ts.foldl (dueStep now shown0 q0 active0 e) acc).newNots.map
        (fun n => n.id)).Nodup ∧
      (∀ n ∈ (ts.foldl (dueStep now shown0 q0 active0 e) acc).newNots,
        n ∈ acc.newNots ∨ ∃ t ∈ ts, n.id = getNotificationKey e t) := by
  intro ts
  induction ts with
  | nil =>
    intro acc h1 h2 h3 h4
    exact ⟨h1, fun n hn => Or.inl hn⟩
  | cons t ts ih =>
    intro acc h1 h2 h3 h4
    rw [List.foldl_cons]
    have hnn := dueStep_newNots now shown0 q0 active0 e acc t
    have hstep_cases :
        (dueStep now shown0 q0 active0 e acc t).newNots = acc.newNots ∨
        (dueStep now shown0 q0 active0 e acc t).newNots
          = acc.newNots ++ [⟨getNotificationKey e t, e, t, now⟩] := by
      rw [hnn]
      split
      · exact Or.inr rfl
      · exact Or.inl rfl
    rcases hstep_cases with hcase | hcase
    · have hres := ih (dueStep now shown0 q0 active0 e acc t)
        (by rw [hcase]; exact h1)
        (by
          rw [hcase]
          intro n hn t' ht'
          exact h2 n hn t' (List.mem_cons_of_mem t ht'))
        ((List.pairwise_cons.mp h3).2)
        (fun t' ht' => h4 t' (List.mem_cons_of_mem t ht'))
      refine ⟨hres.1, fun n hn => ?_⟩
      rcases hres.2 n hn with h | ⟨t', ht', hid⟩
      · rw [hcase] at h
        exact Or.inl h
      · exact Or.inr ⟨t', List.mem_cons_of_mem t ht', hid⟩
    · have h1' : ((dueStep now shown0 q0 active0 e acc t).newNots.map
          (fun n => n.id)).Nodup := by
        rw [hcase, List.map_append]
        refine List.Nodup.append h1 (List.nodup_singleton _) ?_
        intro a ha hb
        simp only [List.map_cons, List.map_nil, List.mem_singleton] at hb
        rcases List.mem_map.mp ha with ⟨m, hm, hid⟩
        refine h2 m hm t (List.mem_cons_self t ts) ?_
        rw [hid, hb]
      have h2' : ∀ n ∈ (dueStep now shown0 q0 active0 e acc t).newNots,
          ∀ t' ∈ ts, n.id ≠ getNotificationKey e t' := by
        rw [hcase]
        intro n hn t' ht'
        rcases List.mem_append.mp hn with h | h
        · exact h2 n h t' (List.mem_cons_of_mem t ht')
        · rw [List.mem_singleton] at h
          rw [h]
          intro heq
          have hts := (getNotificationKey_inj e e t t'
            (h4 t (List.mem_cons_self t ts))
            (h4 t' (List.mem_cons_of_mem t ht')) heq).2
          exact (List.pairwise_cons.mp h3).1 t' ht' hts
      have hres := ih _ h1' h2' ((List.pairwise_cons.mp h3).2)
        (fun t' ht' => h4 t' (List.mem_cons_of_mem t ht'))
      refine ⟨hres.1, fun n hn => ?_⟩
      rcases hres.2 n hn with h | ⟨t', ht', hid⟩
      · rw [hcase] at h
        rcases List.mem_append.mp h with h | h
        · exact Or.inl h
        · rw [List.mem_singleton] at h
          exact Or.inr ⟨t, List.mem_cons_self t ts, by rw [h]⟩
      · exact Or.inr ⟨t', List.mem_cons_of_mem t ht', hid⟩

theorem dueOuter_nodup (now : Int) (shown0 : List String)
    (q0 active0 : List ActiveNotification) :
    ∀ (evs : List CalendarEvent) (acc : DueAcc),
      (acc.newNots.map (fun n => n.id)).Nodup →
      (∀ n ∈ acc.newNots, ∀ e ∈ evs, ∀ t ∈ timingsFor e,
        n.id ≠ getNotificationKey e t) →
      (evs.map (fun e => e.id)).Nodup →
      ((evs.foldl (fun a e =>
          (timingsFor e).foldl (dueStep now shown0 q0 active0 e) a)
        acc).newNots.map (fun n => n.id)).Nodup ∧
      (∀ n ∈ (evs.foldl (fun a e =>
          (timingsFor e).foldl (dueStep now shown0 q0 active0 e) a)
        acc).newNots,
        n ∈ acc.newNots ∨
          ∃ e ∈ evs, ∃ t ∈ timingsFor e, n.id = getNotificationKey e t) := by
  intro evs
  induction evs with
  | nil =>
    intro acc h1 h2 h3
    exact ⟨h1, fun n hn => Or.inl hn⟩
  | cons e evs ih =>
    intro acc h1 h2 h3
    rw [List.foldl_cons]
    have h3' := List.nodup_cons.mp h3
    have hinner := dueInner_nodup now shown0 q0 active0 e (timingsFor e) acc
      h1 (fun n hn t ht => h2 n hn e (List.mem_cons_self e evs) t ht)
      (timingsFor_pairwise_toString e) (timingsFor_dashfree e)
    have h2' : ∀ n ∈ ((timingsFor e).foldl
        (dueStep now shown0 q0 active0 e) acc).newNots,
        ∀ e' ∈ evs, ∀ t' ∈ timingsFor e', n.id ≠ getNotificationKey e' t' := by
      intro n hn e' he' t' ht'
      rcases hinner.2 n hn with h | ⟨t, ht, hid⟩
      · exact h2 n h e' (List.mem_cons_of_mem e he') t' ht'
      · rw [hid]
        intro heq
        have hids := (getNotificationKey_inj e e' t t'
          (timingsFor_dashfree e t ht) (timingsFor_dashfree e' t' ht')
          heq).1
        refine h3'.1 ?_
        show e.id ∈ List.map (fun e => e.id) evs
        rw [hids]
        exact List.mem_map.mpr ⟨e', he', rfl⟩
    have hres := ih _ hinner.1 h2' h3'.2
    refine ⟨hres.1, fun n hn => ?_⟩
    rcases hres.2 n hn with h | ⟨e', he', t', ht', hid⟩
    · rcases hinner.2 n h with h' | ⟨t, ht, hid⟩
      · exact Or.inl h'
      · exact Or.inr ⟨e, List.mem_cons_self e evs, t, ht, hid⟩
    · exact Or.inr ⟨e', List.mem_cons_of_mem e he', t', ht', hid⟩

theorem duePassScan_newNots_nodup (now : Int) (shown0 : List String)
    (q0 active0 : List ActiveNotification) (events : List CalendarEvent)
    (stor : NotificationStorage)
    (hev : (events.map (fun e => e.id)).Nodup) :
    ((duePassScan now shown0 q0 active0 events stor).newNots.map
      (fun n => n.id)).Nodup :=
  (dueOuter_nodup now shown0 q0 active0 events ⟨[], [], stor⟩ (by simp)
    (by simp) hev).1

theorem checkForNotifications_cases (now : Int) (st : NotifState)
    (events : List CalendarEvent) (hcd : st.calendarData = some events) :
    ((checkForNotifications now st).notificationQueue = st.notificationQueue ∧
      (checkForNotifications now st).activeNotifications
        = st.activeNotifications ∧
      (duePassScan now st.shownNotifications st.notificationQueue
        st.activeNotifications events st.storage).newNots = []) ∨
    (∃ first rest,
      (duePassScan now st.shownNotifications st.notificationQueue
        st.activeNotifications events st.storage).newNots = first :: rest ∧
      ((st.activeNotifications.isEmpty = true ∧
          (checkForNotifications now st).notificationQueue
            = appendDedup st.notificationQueue rest ∧
          (checkForNotifications now st).activeNotifications = [first]) ∨
        (¬st.activeNotifications.isEmpty = true ∧
          (checkForNotifications now st).notificationQueue
            = appendDedup st.notificationQueue (first :: rest) ∧
          (checkForNotifications now st).activeNotifications
            = st.activeNotifications))) := by
  rcases hnew : (duePassScan now st.shownNotifications st.notificationQueue
      st.activeNotifications events st.storage).newNots with _ | ⟨first, rest⟩
  · refine Or.inl ⟨?_, ?_, rfl⟩ <;>
      simp only [checkForNotifications, hcd, hnew]
  · by_cases hae : st.activeNotifications.isEmpty = true
    · refine Or.inr ⟨first, rest, rfl, Or.inl ⟨hae, ?_, ?_⟩⟩ <;>
        · simp only [checkForNotifications, hcd, hnew]
          rw [if_pos hae]
    · refine Or.inr ⟨first, rest, rfl, Or.inr ⟨hae, ?_, ?_⟩⟩ <;>
        · simp only [checkForNotifications, hcd, hnew]
          rw [if_neg hae]

theorem any_eq_false_forall {l : List ActiveNotification} {k : String}
    (h : (l.any (fun m => m.id == k)) = false) :
    ∀ a ∈ l, a.id ≠ k := by
  intro a ha heq
  have : l.any (fun m => m.id == k) = true :=
    List.any_eq_true.mpr ⟨a, ha, by simp [heq]⟩
  rw [this] at h
  exact Bool.true_eq_false ▸ h

/-- C10: the queue appends of both scan passes preserve the
at-most-one-entry-per-id invariant of the waiting queue, an item whose id
already occurs in the queue is never appended again, and — for the due
pass — an item whose id occurs in the active slot (the slot the pass checks,
and, given the data model's unique-event-id guarantee, also the slot as it
stands after the pass) is never appended. -/
theorem c10_queue_append_dedup :
    (∀ (now : Int) (st : NotifState),
      ((st.notificationQueue.map (fun n => n.id)).Nodup →
        ((checkForMissedNotifications now st).notificationQueue.map
          (fun n => n.id)).Nodup) ∧
      (∀ n' ∈ (checkForMissedNotifications now st).notificationQueue,
        n' ∉ st.notificationQueue →
        ∀ m ∈ st.notificationQueue, m.id ≠ n'.id)) ∧
    (∀ (now : Int) (st : NotifState) (events : List CalendarEvent),
      st.calendarData = some events →
      ((st.notificationQueue.map (fun n => n.id)).Nodup →
        ((checkForNotifications now st).notificationQueue.map
          (fun n => n.id)).Nodup) ∧
      (∀ n' ∈ (checkForNotifications now st).notificationQueue,
        n' ∉ st.notificationQueue →
        (∀ m ∈ st.notificationQueue, m.id ≠ n'.id) ∧
        ∀ a ∈ st.activeNotifications, a.id ≠ n'.id) ∧
      ((events.map (fun e => e.id)).Nodup →
        ∀ n' ∈ (checkForNotifications now st).notificationQueue,
        n' ∉ st.notificationQueue →
        ∀ a ∈ (checkForNotifications now st).activeNotifications,
          a.id ≠ n'.id)) := by
  constructor
  · intro now st
    rcases hcd : st.calendarData with _ | events
    · constructor
      · intro h
        simp only [checkForMissedNotifications, hcd]
        exact h
      · intro n' hmem hnot
        simp only [checkForMissedNotifications, hcd] at hmem
        exact absurd hmem hnot
    · constructor
      · intro h
        simp only [checkForMissedNotifications, hcd]
        exact appendDedup_nodup _ _ h
      · intro n' hmem hnot
        simp only [checkForMissedNotifications, hcd] at hmem
        exact appendDedup_added_fresh _ _ _ hmem hnot
  · intro now st events hcd
    have hfresh := duePassScan_newNots_fresh now st.shownNotifications
      st.notificationQueue st.activeNotifications events st.storage
    rcases checkForNotifications_cases now st events hcd with
      ⟨hq, ha, hnil⟩ | ⟨first, rest, hnew, hcase⟩
    · refine ⟨?_, ?_, ?_⟩
      · intro h
        rw [hq]
        exact h
      · intro n' hmem hnot
        rw [hq] at hmem
        exact absurd hmem hnot
      · intro hev n' hmem hnot
        rw [hq] at hmem
        exact absurd hmem hnot
    · have hmem_newNots : ∀ n' ∈ (checkForNotifications now st).notificationQueue,
          n' ∉ st.notificationQueue →
          n' ∈ (duePassScan now st.shownNotifications st.notificationQueue
            st.activeNotifications events st.storage).newNots := by
        intro n' hmem hnot
        rcases hcase with ⟨-, hq, -⟩ | ⟨-, hq, -⟩
        · rw [hq] at hmem
          rcases mem_appendDedup hmem with h | h
          · exact absurd h hnot
          · rw [hnew]
            exact List.mem_cons_of_mem first h
        · rw [hq] at hmem
          rcases mem_appendDedup hmem with h | h
          · exact absurd h hnot
          · rw [hnew]
            exact h
      refine ⟨?_, ?_, ?_⟩
      · intro h
        rcases hcase with ⟨-, hq, -⟩ | ⟨-, hq, -⟩ <;> rw [hq] <;>
          exact appendDedup_nodup _ _ h
      · intro n' hmem hnot
        have hn' := hmem_newNots n' hmem hnot
        constructor
        · rcases hcase with ⟨-, hq, -⟩ | ⟨-, hq, -⟩ <;> rw [hq] at hmem <;>
            exact appendDedup_added_fresh _ _ _ hmem hnot
        · exact any_eq_false_forall (hfresh n' hn').2
      · intro hev n' hmem hnot a ha
        have hn' := hmem_newNots n' hmem hnot
        have hnodup := duePassScan_newNots_nodup now st.shownNotifications
          st.notificationQueue st.activeNotifications events st.storage hev
        rcases hcase with ⟨hae, hq, hact⟩ | ⟨hae, hq, hact⟩
        · rw [hact, List.mem_singleton] at ha
          have hrest : n' ∈ rest := by
            rw [hq] at hmem
            rcases mem_appendDedup hmem with h | h
            · exact absurd h hnot
            · exact h
          rw [ha]
          intro heq
          rw [hnew, List.map_cons, List.nodup_cons] at hnodup
          refine hnodup.1 ?_
          rw [heq]
          exact List.mem_map.mpr ⟨n', hrest, rfl⟩
        · rw [hact] at ha
          exact any_eq_false_forall (hfresh n' hn').2 a ha

theorem c10_witness :
    ((checkForMissedNotifications 0 threeDueDelivered).notificationQueue.map
      (fun n => n.id)).Nodup ∧
    ((checkForNotifications 0 threeDueDelivered).notificationQueue.map
      (fun n => n.id)).Nodup ∧
    (⟨"e1-3600000", mkEvent "e1" 3600000, ⟨3600000, "1 hour"⟩, 0⟩ :
        ActiveNotification).id
      ≠ (⟨"e2-3600000", mkEvent "e2" 3600000, ⟨3600000, "1 hour"⟩, 0⟩ :
        ActiveNotification).id := by
  obtain ⟨h1, h2⟩ := c10_queue_append_dedup
  refine ⟨(h1 0 threeDueDelivered).1 (by decide), ?_, ?_⟩
  · exact (h2 0 threeDueDelivered threeDueEvents (by decide)).1 (by decide)
  · exact (h2 0 threeDueDelivered threeDueEvents (by decide)).2.2 (by decide)
      ⟨"e2-3600000", mkEvent "e2" 3600000, ⟨3600000, "1 hour"⟩, 0⟩
      (by decide) (by decide)
      ⟨"e1-3600000", mkEvent "e1" 3600000, ⟨3600000, "1 hour"⟩, 0⟩
      (by decide)

theorem c3_witness :
    futureRecord ∈ getUnshownNotifications ⟨[futureRecord], 0⟩ 3600000 :=
  (c3_unshown_query_characterization ⟨[futureRecord], 0⟩ 3600000
    futureRecord).mpr ⟨by decide, by decide, by decide⟩

theorem c9_witness :
    timingsFor
        { mkEvent "imp" 0 with description := some "do [IMPORTANT] now" }
      = IMPORTANT_TIMINGS :=
  (c9_timing_policy
      { mkEvent "imp" 0 with description := some "do [IMPORTANT] now" }).2.1.mpr
    ⟨"do [IMPORTANT] now", "do ".data, " now".data, rfl, by decide⟩
